import Mathlib

/-!
Verification of the Herd-of-Agents core (message bus, action parser, agent
lifecycle, orchestrator) against its natural-language specification.

The Python sources are shallowly embedded: dictionaries become association
lists (`List (String × α)`, insertion-ordered like Python dicts), queues
become `List` used FIFO (enqueue at the tail, drain from the head), optional
dict fields become `Option String`, and wall-clock timestamps become `Nat`
parameters supplied by the caller.  All embedded operations are sequential:
every bus/manager method in the source takes the single global lock (or is
serialized through the monitor thread), so one interleaving step corresponds
to one function application here.
-/

namespace HerdAgents

/-! ### Association-list helpers (Python `dict` semantics)

Python dicts preserve insertion order; assignment to an existing key replaces
the value in place, assignment to a fresh key appends, and `del` removes the
entry while preserving the order of the others. -/

/-- Keys of an association list, in insertion order. -/
def alistKeys {α : Type} (l : List (String × α)) : List String :=
  l.map Prod.fst

/-- Lookup of a key (`d[k]` / `k in d` test), first occurrence. -/
def alistFind {α : Type} (k : String) : List (String × α) → Option α
  | [] => none
  | (k1, v) :: rest => if k1 = k then some v else alistFind k rest

/-- Dict assignment `d[k] = v`: replace in place if the key exists, else append. -/
def alistInsert {α : Type} (k : String) (v : α) : List (String × α) → List (String × α)
  | [] => [(k, v)]
  | (k1, v1) :: rest => if k1 = k then (k, v) :: rest else (k1, v1) :: alistInsert k v rest

/-- Dict deletion `del d[k]` (no-op when the key is absent, matching the
guarded `if k in d: del d[k]` shape used throughout the source). -/
def alistErase {α : Type} (k : String) (l : List (String × α)) : List (String × α) :=
  l.filter (fun e => e.1 ≠ k)

/-- Update the value stored at a key, leaving the list unchanged when the key
is absent. -/
def alistModify {α : Type} (k : String) (f : α → α) : List (String × α) → List (String × α)
  | [] => []
  | (k1, v) :: rest => if k1 = k then (k1, f v) :: rest else (k1, v) :: alistModify k f rest

theorem alistFind_modify_self {α : Type} (k : String) (f : α → α) (l : List (String × α)) :
    alistFind k (alistModify k f l) = (alistFind k l).map f := by
  induction l with
  | nil => rfl
  | cons e rest ih =>
    obtain ⟨k1, v⟩ := e
    by_cases h : k1 = k <;> simp [alistModify, alistFind, h, ih]

theorem alistFind_modify_ne {α : Type} (k k1 : String) (f : α → α) (l : List (String × α))
    (h : k1 ≠ k) : alistFind k (alistModify k1 f l) = alistFind k l := by
  induction l with
  | nil => rfl
  | cons e rest ih =>
    obtain ⟨k2, v⟩ := e
    by_cases h2 : k2 = k1
    · subst h2
      simp [alistModify, alistFind, h]
    · by_cases h3 : k2 = k
      · subst h3
        simp [alistModify, alistFind, h2]
      · simp [alistModify, alistFind, h2, h3, ih]

theorem alistKeys_modify {α : Type} (k : String) (f : α → α) (l : List (String × α)) :
    alistKeys (alistModify k f l) = alistKeys l := by
  induction l with
  | nil => rfl
  | cons e rest ih =>
    obtain ⟨k1, v⟩ := e
    have ih2 : List.map Prod.fst (alistModify k f rest) = List.map Prod.fst rest := ih
    by_cases h : k1 = k
    · simp [alistModify, alistKeys, h, ih2]
    · simp [alistModify, alistKeys, h, ih2]

theorem alistKeys_insert_mem {α : Type} (k : String) (v : α) (l : List (String × α))
    (hmem : k ∈ alistKeys l) : alistKeys (alistInsert k v l) = alistKeys l := by
  induction l with
  | nil => simp [alistKeys] at hmem
  | cons e rest ih =>
    obtain ⟨k1, v1⟩ := e
    by_cases h : k1 = k
    · subst h
      simp [alistInsert, alistKeys]
    · have h2 : ¬(k = k1) := fun h3 => h h3.symm
      have hmem2 : k ∈ alistKeys rest := by
        rcases List.mem_cons.mp hmem with h3 | h3
        · exact absurd h3 h2
        · exact h3
      have ih2 : List.map Prod.fst (alistInsert k v rest) = List.map Prod.fst rest :=
        ih hmem2
      simp [alistInsert, alistKeys, h, ih2]

theorem alistKeys_insert_not_mem {α : Type} (k : String) (v : α) (l : List (String × α))
    (hmem : k ∉ alistKeys l) : alistKeys (alistInsert k v l) = alistKeys l ++ [k] := by
  induction l with
  | nil => simp [alistInsert, alistKeys]
  | cons e rest ih =>
    obtain ⟨k1, v1⟩ := e
    by_cases h : k1 = k
    · exact absurd (by simp [alistKeys, h.symm]) hmem
    · have hmem2 : k ∉ alistKeys rest := fun h2 => hmem (List.mem_cons_of_mem k1 h2)
      have ih2 : List.map Prod.fst (alistInsert k v rest) = List.map Prod.fst rest ++ [k] :=
        ih hmem2
      simp [alistInsert, alistKeys, h, ih2]

theorem alistKeys_erase {α : Type} (k : String) (l : List (String × α)) :
    alistKeys (alistErase k l) = (alistKeys l).filter (fun k1 => k1 ≠ k) := by
  induction l with
  | nil => rfl
  | cons e rest ih =>
    obtain ⟨k1, v1⟩ := e
    by_cases h : k1 = k
    · simpa [alistErase, alistKeys, h] using ih
    · simpa [alistErase, alistKeys, h] using ih

theorem alistFind_mem_keys {α : Type} (k : String) (l : List (String × α)) :
    alistFind k l ≠ none ↔ k ∈ alistKeys l := by
  induction l with
  | nil => simp [alistFind, alistKeys]
  | cons e rest ih =>
    obtain ⟨k1, v⟩ := e
    by_cases h : k1 = k
    · subst h
      simp [alistFind, alistKeys]
    · have h2 : ¬(k = k1) := fun h3 => h h3.symm
      simp [alistFind, alistKeys, h, h2, ih]

/-! ### Messages (`message_bus.py`)

A published message is a Python dict with keys `from`, `to`, `content`,
`timestamp`.  The bus reads them via `message.get('to', 'broadcast')` and
`message.get('from')`, so `from` and `to` are modelled as `Option String`
(`none` = key absent) and the accessors below reproduce the `.get` defaults. -/

structure Msg where
  from_ : Option String
  to_ : Option String
  content : String
  timestamp : Nat
  deriving DecidableEq, Repr

/-- Accessor for `message.get('to', 'broadcast')`. -/
def Msg.getTo (m : Msg) : String := m.to_.getD "broadcast"

/-- Python truthiness of `message.get('from')`: `None` and the empty string
are falsy, any other string is truthy (`if not delivered and from_agent:`). -/
def optTruthy (o : Option String) : Bool :=
  match o with
  | none => false
  | some s => s ≠ ""

/-! ### Message bus (`message_bus.py`, class `MessageBus`)

`agent_queues` is the per-agent mailbox dict (`Dict[str, queue.Queue]`; each
`queue.Queue()` is unbounded, so `put_nowait` never raises `queue.Full` and
the `except queue.Full` branch of `_deliver_to_agent` is dead code — delivery
to a registered id always succeeds).  `message_history` is the bounded global
history, `max_history` the capacity set to 1000 in `__init__`. -/

structure MessageBus where
  agent_queues : List (String × List Msg)
  message_history : List Msg
  max_history : Nat
  deriving DecidableEq, Repr

/-- Embeds `MessageBus.__init__`. -/
def MessageBus.init : MessageBus :=
  { agent_queues := [], message_history := [], max_history := 1000 }

/-- Embeds `MessageBus.register_agent`: create an empty mailbox unless the id
already has one. -/
def MessageBus.registerAgent (agent_id : String) (bus : MessageBus) : MessageBus :=
  if agent_id ∈ alistKeys bus.agent_queues then bus
  else { bus with agent_queues := bus.agent_queues ++ [(agent_id, [])] }

/-- Embeds `MessageBus.unregister_agent`: drain the mailbox and delete the
entry (net effect: the entry is removed); no-op when the id is absent. -/
def MessageBus.unregisterAgent (agent_id : String) (bus : MessageBus) : MessageBus :=
  { bus with agent_queues := alistErase agent_id bus.agent_queues }

/-- Embeds `MessageBus._deliver_to_agent`: enqueue into the target's mailbox
and report `True` when the id is registered, else change nothing and report
`False` (the `queue.Full` branch is unreachable for an unbounded `Queue`). -/
def MessageBus.deliverToAgent (agent_id : String) (message : Msg) (bus : MessageBus) :
    Bool × MessageBus :=
  if agent_id ∈ alistKeys bus.agent_queues then
    (true, { bus with agent_queues := alistModify agent_id (fun q => q ++ [message]) bus.agent_queues })
  else
    (false, bus)

/-- Embeds the history append of `MessageBus.publish` (lines 50-53): append,
then `pop(0)` when the length exceeds the capacity. -/
def histAppend (maxH : Nat) (hist : List Msg) (message : Msg) : List Msg :=
  let h2 := hist ++ [message]
  if h2.length > maxH then h2.drop 1 else h2

/-- Embeds the broadcast fan-out loop of `MessageBus.publish`: for each id in
the snapshot of registered ids (in dict insertion order), deliver unless the
id equals the sender (`agent_id != from_agent`; a `None` sender differs from
every id, so the message then goes to everyone). -/
def deliverLoop (ids : List String) (from_agent : Option String) (message : Msg)
    (bus : MessageBus) : MessageBus :=
  ids.foldl
    (fun b agent_id =>
      if some agent_id ≠ from_agent then (b.deliverToAgent agent_id message).2 else b)
    bus

/-- Synthesized failure notice of `MessageBus.publish` (lines 76-81): `from`
is the literal "system", `to` is the sender, the content names the
undeliverable target, and the timestamp is the current time (passed in as
`now`). -/
def failureNotice (now : Nat) (to_id from_agent : String) : Msg :=
  { from_ := some "system"
    to_ := some from_agent
    content := "DELIVERY FAILED: Agent " ++ to_id ++ " is not active."
    timestamp := now }

/-- Embeds `MessageBus.publish`: append to history (with eviction), then
route — broadcast fan-out skipping the sender, or direct delivery with a
failure notice to a truthy sender when the target mailbox is missing. -/
def MessageBus.publish (now : Nat) (message : Msg) (bus : MessageBus) : MessageBus :=
  let bus1 : MessageBus :=
    { bus with message_history := histAppend bus.max_history bus.message_history message }
  let to_id := message.getTo
  if to_id = "broadcast" then
    deliverLoop (alistKeys bus1.agent_queues) message.from_ message bus1
  else
    let r := bus1.deliverToAgent to_id message
    if !r.1 && optTruthy message.from_ then
      (r.2.deliverToAgent (message.from_.getD "") (failureNotice now to_id (message.from_.getD ""))).2
    else
      r.2

/-- Embeds `MessageBus.get_messages`: drain and return all pending messages
(FIFO) for a registered id; return `[]` and change nothing for an
unregistered id. -/
def MessageBus.getMessages (agent_id : String) (bus : MessageBus) : List Msg × MessageBus :=
  match alistFind agent_id bus.agent_queues with
  | none => ([], bus)
  | some q => (q, { bus with agent_queues := alistModify agent_id (fun _ => []) bus.agent_queues })

/-! ### Supporting lemmas about bus operations -/

theorem alistModify_absent {α : Type} (k : String) (f : α → α) (l : List (String × α))
    (h : k ∉ alistKeys l) : alistModify k f l = l := by
  induction l with
  | nil => rfl
  | cons e rest ih =>
    obtain ⟨k1, v⟩ := e
    have h1 : ¬(k1 = k) := fun h2 => h (by simp [alistKeys, h2])
    have h2 : k ∉ alistKeys rest := fun h3 => h (List.mem_cons_of_mem k1 h3)
    simp [alistModify, h1, ih h2]

theorem deliverToAgent_queues (agent_id : String) (m : Msg) (bus : MessageBus) :
    ((bus.deliverToAgent agent_id m).2).agent_queues =
      alistModify agent_id (fun q => q ++ [m]) bus.agent_queues := by
  by_cases h : agent_id ∈ alistKeys bus.agent_queues
  · simp [MessageBus.deliverToAgent, h]
  · simp [MessageBus.deliverToAgent, h, alistModify_absent agent_id _ _ h]

theorem deliverToAgent_history (agent_id : String) (m : Msg) (bus : MessageBus) :
    ((bus.deliverToAgent agent_id m).2).message_history = bus.message_history := by
  by_cases h : agent_id ∈ alistKeys bus.agent_queues <;> simp [MessageBus.deliverToAgent, h]

theorem deliverToAgent_max (agent_id : String) (m : Msg) (bus : MessageBus) :
    ((bus.deliverToAgent agent_id m).2).max_history = bus.max_history := by
  by_cases h : agent_id ∈ alistKeys bus.agent_queues <;> simp [MessageBus.deliverToAgent, h]

theorem deliverToAgent_fst (agent_id : String) (m : Msg) (bus : MessageBus) :
    (bus.deliverToAgent agent_id m).1 = decide (agent_id ∈ alistKeys bus.agent_queues) := by
  by_cases h : agent_id ∈ alistKeys bus.agent_queues <;> simp [MessageBus.deliverToAgent, h]

theorem deliverLoop_history (ids : List String) (fr : Option String) (m : Msg)
    (bus : MessageBus) : (deliverLoop ids fr m bus).message_history = bus.message_history := by
  induction ids generalizing bus with
  | nil => rfl
  | cons id rest ih =>
    simp only [deliverLoop, List.foldl_cons] at *
    by_cases h : some id ≠ fr
    · rw [if_pos h, ih, deliverToAgent_history]
    · rw [if_neg h, ih]

theorem deliverLoop_max (ids : List String) (fr : Option String) (m : Msg)
    (bus : MessageBus) : (deliverLoop ids fr m bus).max_history = bus.max_history := by
  induction ids generalizing bus with
  | nil => rfl
  | cons id rest ih =>
    simp only [deliverLoop, List.foldl_cons] at *
    by_cases h : some id ≠ fr
    · rw [if_pos h, ih, deliverToAgent_max]
    · rw [if_neg h, ih]

theorem deliverLoop_keys (ids : List String) (fr : Option String) (m : Msg)
    (bus : MessageBus) :
    alistKeys (deliverLoop ids fr m bus).agent_queues = alistKeys bus.agent_queues := by
  induction ids generalizing bus with
  | nil => rfl
  | cons id rest ih =>
    simp only [deliverLoop, List.foldl_cons] at *
    by_cases h : some id ≠ fr
    · rw [if_pos h, ih, deliverToAgent_queues, alistKeys_modify]
    · rw [if_neg h, ih]

theorem deliverLoop_find (ids : List String) (fr : Option String) (m : Msg)
    (bus : MessageBus) (id : String) (hnd : ids.Nodup) :
    alistFind id (deliverLoop ids fr m bus).agent_queues =
      if id ∈ ids ∧ some id ≠ fr then
        (alistFind id bus.agent_queues).map (fun q => q ++ [m])
      else alistFind id bus.agent_queues := by
  induction ids generalizing bus with
  | nil => simp [deliverLoop]
  | cons hd rest ih =>
    have hnd2 : rest.Nodup := hnd.of_cons
    have hhd : hd ∉ rest := (List.nodup_cons.mp hnd).1
    simp only [deliverLoop, List.foldl_cons] at *
    by_cases hcur : some hd ≠ fr
    · rw [if_pos hcur, ih _ hnd2]
      by_cases heq : id = hd
      · subst heq
        have : id ∉ rest := hhd
        rw [if_neg (by simp [this]), deliverToAgent_queues, alistFind_modify_self]
        simp [hcur]
      · have hfind : alistFind id ((bus.deliverToAgent hd m).2).agent_queues =
            alistFind id bus.agent_queues := by
          rw [deliverToAgent_queues, alistFind_modify_ne _ _ _ _ (fun h => heq h.symm)]
        rw [hfind]
        by_cases hmem : id ∈ rest <;> simp [hmem, heq]
    · rw [if_neg hcur, ih _ hnd2]
      by_cases heq : id = hd
      · subst heq
        have : id ∉ rest := hhd
        simp [this, hcur]
      · by_cases hmem : id ∈ rest <;> simp [hmem, heq]

theorem publish_message_history (now : Nat) (m : Msg) (bus : MessageBus) :
    (bus.publish now m).message_history =
      histAppend bus.max_history bus.message_history m := by
  by_cases hb : m.getTo = "broadcast"
  · simp only [MessageBus.publish, hb, if_pos]
    rw [deliverLoop_history]
  · simp only [MessageBus.publish, if_neg hb]
    by_cases hcond :
        !(({ bus with message_history := histAppend bus.max_history bus.message_history m
            : MessageBus }).deliverToAgent m.getTo m).1 && optTruthy m.from_
    · rw [if_pos hcond, deliverToAgent_history, deliverToAgent_history]
    · rw [if_neg hcond, deliverToAgent_history]

theorem publish_max (now : Nat) (m : Msg) (bus : MessageBus) :
    (bus.publish now m).max_history = bus.max_history := by
  by_cases hb : m.getTo = "broadcast"
  · simp only [MessageBus.publish, hb, if_pos]
    rw [deliverLoop_max]
  · simp only [MessageBus.publish, if_neg hb]
    by_cases hcond :
        !(({ bus with message_history := histAppend bus.max_history bus.message_history m
            : MessageBus }).deliverToAgent m.getTo m).1 && optTruthy m.from_
    · rw [if_pos hcond, deliverToAgent_max, deliverToAgent_max]
    · rw [if_neg hcond, deliverToAgent_max]

/-- Sliding-window step: appending one message to a history that is the
1000-suffix of the previously published messages yields the 1000-suffix of
the extended publication list. -/
theorem histAppend_window (l : List Msg) (m : Msg) :
    histAppend 1000 (l.drop (l.length - 1000)) m =
      (l ++ [m]).drop (l.length + 1 - 1000) := by
  by_cases h : l.length < 1000
  · have h0 : l.length - 1000 = 0 := Nat.sub_eq_zero_of_le (le_of_lt h)
    have h1 : l.length + 1 - 1000 = 0 := Nat.sub_eq_zero_of_le h
    have h2 : ¬((l ++ [m]).length > 1000) := by
      simp only [List.length_append, List.length_cons, List.length_nil]
      omega
    simp only [histAppend, h0, h1, List.drop_zero]
    rw [if_neg h2]
  · have hge : 1000 ≤ l.length := le_of_not_lt h
    have hlen : (l.drop (l.length - 1000)).length = 1000 := by
      rw [List.length_drop]
      omega
    have hcond : (l.drop (l.length - 1000) ++ [m]).length > 1000 := by
      simp [hlen]
    simp only [histAppend, hcond, if_pos]
    have hle : 1 ≤ (l.drop (l.length - 1000)).length := by omega
    rw [List.drop_append_of_le_length hle, List.drop_drop]
    have harith : l.length - 1000 + 1 ≤ l.length := by omega
    have hidx : l.length + 1 - 1000 = l.length - 1000 + 1 := by omega
    rw [hidx, List.drop_append_of_le_length harith]

/-! ### Bus operation sequences -/

/-- One externally invokable bus mutation (`publish`, `register_agent`,
`unregister_agent`). -/
inductive BusOp where
  | pub (now : Nat) (message : Msg)
  | reg (agent_id : String)
  | unreg (agent_id : String)

/-- Apply one bus operation. -/
def applyBusOp (bus : MessageBus) : BusOp → MessageBus
  | .pub now message => bus.publish now message
  | .reg agent_id => bus.registerAgent agent_id
  | .unreg agent_id => bus.unregisterAgent agent_id

/-- Messages published by a sequence of bus operations, in publication order. -/
def publishedOf : List BusOp → List Msg
  | [] => []
  | .pub _ m :: rest => m :: publishedOf rest
  | .reg _ :: rest => publishedOf rest
  | .unreg _ :: rest => publishedOf rest

theorem applyBusOp_history_reg (bus : MessageBus) (id : String) :
    (applyBusOp bus (.reg id)).message_history = bus.message_history := by
  by_cases h : id ∈ alistKeys bus.agent_queues <;>
    simp [applyBusOp, MessageBus.registerAgent, h]

theorem applyBusOp_max_reg (bus : MessageBus) (id : String) :
    (applyBusOp bus (.reg id)).max_history = bus.max_history := by
  by_cases h : id ∈ alistKeys bus.agent_queues <;>
    simp [applyBusOp, MessageBus.registerAgent, h]

theorem foldBusOps_history (ops : List BusOp) (bus : MessageBus) (l : List Msg)
    (hmax : bus.max_history = 1000)
    (hh : bus.message_history = l.drop (l.length - 1000)) :
    (ops.foldl applyBusOp bus).message_history =
      (l ++ publishedOf ops).drop ((l ++ publishedOf ops).length - 1000) ∧
    (ops.foldl applyBusOp bus).max_history = 1000 := by
  induction ops generalizing bus l with
  | nil => simpa [publishedOf] using ⟨hh, hmax⟩
  | cons op rest ih =>
    rw [List.foldl_cons]
    match op with
    | .pub now m =>
      have h1 : (applyBusOp bus (.pub now m)).message_history =
          (l ++ [m]).drop ((l ++ [m]).length - 1000) := by
        have hw := histAppend_window l m
        simp only [applyBusOp, publish_message_history, hmax, hh]
        simpa [List.length_append] using hw
      have h2 : (applyBusOp bus (.pub now m)).max_history = 1000 := by
        simpa [applyBusOp, publish_max] using hmax
      have h3 := ih (applyBusOp bus (.pub now m)) (l ++ [m]) h2 h1
      simpa [publishedOf, List.append_assoc] using h3
    | .reg id =>
      have h1 : (applyBusOp bus (.reg id)).message_history = l.drop (l.length - 1000) := by
        rw [applyBusOp_history_reg, hh]
      have h2 : (applyBusOp bus (.reg id)).max_history = 1000 := by
        rw [applyBusOp_max_reg, hmax]
      have h3 := ih (applyBusOp bus (.reg id)) l h2 h1
      simpa [publishedOf] using h3
    | .unreg id =>
      have h1 : (applyBusOp bus (.unreg id)).message_history = l.drop (l.length - 1000) := by
        simpa [applyBusOp, MessageBus.unregisterAgent] using hh
      have h2 : (applyBusOp bus (.unreg id)).max_history = 1000 := by
        simpa [applyBusOp, MessageBus.unregisterAgent] using hmax
      have h3 := ih (applyBusOp bus (.unreg id)) l h2 h1
      simpa [publishedOf] using h3

/-- C4: after every sequence of bus operations starting from a fresh bus, the
global history equals the most recent at-most-1000 published messages in
publication order (so an append beyond capacity evicts the oldest entry
first), and its length never exceeds the capacity 1000. -/
theorem history_bounded_window (ops : List BusOp) :
    (ops.foldl applyBusOp MessageBus.init).message_history =
      (publishedOf ops).drop ((publishedOf ops).length - 1000) ∧
    (ops.foldl applyBusOp MessageBus.init).message_history.length ≤ 1000 := by
  have h := foldBusOps_history ops MessageBus.init [] rfl rfl
  have h1 : (ops.foldl applyBusOp MessageBus.init).message_history =
      (publishedOf ops).drop ((publishedOf ops).length - 1000) := by
    simpa using h.1
  refine ⟨h1, ?_⟩
  rw [h1, List.length_drop]
  omega

/-- C5: publishing a broadcast message enqueues exactly one copy into the
mailbox of every agent registered at publish time other than the sender, and
the sender's own mailbox is unchanged; the set of registered ids is
unchanged. -/
theorem broadcast_reaches_all_but_sender (bus : MessageBus) (now : Nat) (m : Msg)
    (hb : m.getTo = "broadcast") (hnd : (alistKeys bus.agent_queues).Nodup) :
    (∀ id q, alistFind id bus.agent_queues = some q →
        alistFind id (bus.publish now m).agent_queues =
          some (if m.from_ = some id then q else q ++ [m])) ∧
    alistKeys (bus.publish now m).agent_queues = alistKeys bus.agent_queues := by
  have hqueues : (bus.publish now m).agent_queues =
      (deliverLoop (alistKeys bus.agent_queues) m.from_ m
        { bus with message_history := histAppend bus.max_history bus.message_history m }).agent_queues := by
    simp [MessageBus.publish, hb]
  constructor
  · intro id q hq
    have hmem : id ∈ alistKeys bus.agent_queues :=
      (alistFind_mem_keys id bus.agent_queues).mp (by simp [hq])
    rw [hqueues, deliverLoop_find _ _ _ _ _ hnd]
    by_cases hfr : m.from_ = some id
    · rw [if_neg (by simp [hfr]), if_pos hfr]
      exact hq
    · rw [if_pos ⟨hmem, fun h => hfr h.symm⟩]
      simp [hq, hfr]
  · rw [hqueues, deliverLoop_keys]

theorem broadcast_reaches_all_but_sender_witness :
    alistFind "b" ((MessageBus.publish 5 ⟨some "a", some "broadcast", "hello", 1⟩
        ⟨[("a", []), ("b", [])], [], 1000⟩).agent_queues) =
      some [⟨some "a", some "broadcast", "hello", 1⟩] ∧
    alistFind "a" ((MessageBus.publish 5 ⟨some "a", some "broadcast", "hello", 1⟩
        ⟨[("a", []), ("b", [])], [], 1000⟩).agent_queues) = some [] := by
  have h := broadcast_reaches_all_but_sender
      ⟨[("a", []), ("b", [])], [], 1000⟩ 5 ⟨some "a", some "broadcast", "hello", 1⟩
      (by decide) (by decide)
  exact ⟨(h.1 "b" [] (by decide)).trans (by decide),
         (h.1 "a" [] (by decide)).trans (by decide)⟩

/-- C10: draining an unregistered id returns the empty list and leaves the
bus entirely unchanged; draining a registered id returns the full mailbox
contents in FIFO order and leaves that mailbox empty and everything else
unchanged. -/
theorem get_messages_drain_spec (bus : MessageBus) (agent_id : String) :
    (alistFind agent_id bus.agent_queues = none →
        bus.getMessages agent_id = ([], bus)) ∧
    (∀ q, alistFind agent_id bus.agent_queues = some q →
        (bus.getMessages agent_id).1 = q ∧
        alistFind agent_id ((bus.getMessages agent_id).2).agent_queues = some [] ∧
        (∀ id2, id2 ≠ agent_id →
          alistFind id2 ((bus.getMessages agent_id).2).agent_queues =
            alistFind id2 bus.agent_queues) ∧
        ((bus.getMessages agent_id).2).message_history = bus.message_history ∧
        alistKeys ((bus.getMessages agent_id).2).agent_queues =
          alistKeys bus.agent_queues) := by
  constructor
  · intro h
    simp [MessageBus.getMessages, h]
  · intro q hq
    refine ⟨by simp [MessageBus.getMessages, hq], ?_, ?_, ?_, ?_⟩
    · simp [MessageBus.getMessages, hq, alistFind_modify_self]
    · intro id2 h2
      simp [MessageBus.getMessages, hq, alistFind_modify_ne _ _ _ _ (fun h3 => h2 h3.symm)]
    · simp [MessageBus.getMessages, hq]
    · simp [MessageBus.getMessages, hq, alistKeys_modify]

theorem get_messages_drain_spec_witness :
    (MessageBus.getMessages "z" ⟨[("a", [⟨some "x", some "a", "m1", 0⟩])], [], 1000⟩ =
      ([], ⟨[("a", [⟨some "x", some "a", "m1", 0⟩])], [], 1000⟩)) ∧
    (MessageBus.getMessages "a" ⟨[("a", [⟨some "x", some "a", "m1", 0⟩])], [], 1000⟩).1 =
      [⟨some "x", some "a", "m1", 0⟩] := by
  refine ⟨(get_messages_drain_spec ⟨[("a", [⟨some "x", some "a", "m1", 0⟩])], [], 1000⟩ "z").1
      (by decide), ?_⟩
  exact ((get_messages_drain_spec ⟨[("a", [⟨some "x", some "a", "m1", 0⟩])], [], 1000⟩ "a").2
      [⟨some "x", some "a", "m1", 0⟩] (by decide)).1

/-- C1 counterexample: a direct message from registered "a" to unregistered
"b" *does* add an entry (the original message) to the global history — the
publish does not add zero entries — while the failure notice is delivered to
the sender's mailbox and kept out of the history. -/
theorem publish_unregistered_adds_history_entry :
    (MessageBus.publish 7 ⟨some "a", some "b", "hi", 3⟩
        ⟨[("a", [])], [], 1000⟩).message_history.length ≠ 0 ∧
    (MessageBus.publish 7 ⟨some "a", some "b", "hi", 3⟩
        ⟨[("a", [])], [], 1000⟩).message_history = [⟨some "a", some "b", "hi", 3⟩] ∧
    alistFind "a" (MessageBus.publish 7 ⟨some "a", some "b", "hi", 3⟩
        ⟨[("a", [])], [], 1000⟩).agent_queues = some [failureNotice 7 "b" "a"] := by
  decide

/-- C1 (amended): publishing a direct message to an unregistered id delivers
exactly one system-originated failure notice naming the undeliverable target
to the sender's mailbox (only when the sender field is truthy and the sender
is itself still registered; all other mailboxes are untouched), adds exactly
the original message — one entry, subject to capacity eviction — to the
global history, and never adds the failure notice to the history. -/
theorem publish_unregistered_failure_notice (bus : MessageBus) (now : Nat) (m : Msg)
    (hto : m.getTo ≠ "broadcast") (hunreg : m.getTo ∉ alistKeys bus.agent_queues) :
    (bus.publish now m).message_history =
        histAppend bus.max_history bus.message_history m ∧
    (bus.message_history.length < bus.max_history →
        (bus.publish now m).message_history = bus.message_history ++ [m]) ∧
    (∀ x ∈ (bus.publish now m).message_history,
        x ∈ bus.message_history ∨ x = m) ∧
    (∀ s, m.from_ = some s → s ≠ "" → s ∈ alistKeys bus.agent_queues →
        alistFind s (bus.publish now m).agent_queues =
          (alistFind s bus.agent_queues).map (fun q => q ++ [failureNotice now m.getTo s]) ∧
        (∀ id2, id2 ≠ s →
          alistFind id2 (bus.publish now m).agent_queues =
            alistFind id2 bus.agent_queues)) ∧
    (optTruthy m.from_ = false → (bus.publish now m).agent_queues = bus.agent_queues) ∧
    (∀ s, m.from_ = some s → s ∉ alistKeys bus.agent_queues →
        (bus.publish now m).agent_queues = bus.agent_queues) := by
  have hhist : (bus.publish now m).message_history =
      histAppend bus.max_history bus.message_history m := publish_message_history now m bus
  have hfail : (({ bus with
      message_history := histAppend bus.max_history bus.message_history m
      : MessageBus }).deliverToAgent m.getTo m) =
      (false, { bus with
        message_history := histAppend bus.max_history bus.message_history m }) := by
    simp [MessageBus.deliverToAgent, hunreg]
  have hqform : (bus.publish now m).agent_queues =
      if optTruthy m.from_ then
        alistModify (m.from_.getD "")
          (fun q => q ++ [failureNotice now m.getTo (m.from_.getD "")]) bus.agent_queues
      else bus.agent_queues := by
    have h1 : bus.publish now m =
        if optTruthy m.from_ then
          ((({ bus with message_history := histAppend bus.max_history bus.message_history m
              : MessageBus }).deliverToAgent (m.from_.getD "")
              (failureNotice now m.getTo (m.from_.getD ""))).2)
        else { bus with message_history := histAppend bus.max_history bus.message_history m } := by
      simp only [MessageBus.publish, if_neg hto, hfail, Bool.not_false, Bool.true_and]
    rw [h1]
    by_cases htr : optTruthy m.from_
    · rw [if_pos htr, if_pos htr, deliverToAgent_queues]
    · rw [if_neg htr, if_neg htr]
  refine ⟨hhist, ?_, ?_, ?_, ?_, ?_⟩
  · intro hlt
    rw [hhist, histAppend]
    have : ¬((bus.message_history ++ [m]).length > bus.max_history) := by
      simp only [List.length_append, List.length_cons, List.length_nil]
      omega
    rw [if_neg this]
  · intro x hx
    rw [hhist] at hx
    have hsub : x ∈ bus.message_history ++ [m] := by
      have hx2 : x ∈ (if (bus.message_history ++ [m]).length > bus.max_history then
          (bus.message_history ++ [m]).drop 1 else bus.message_history ++ [m]) := hx
      by_cases hc : (bus.message_history ++ [m]).length > bus.max_history
      · rw [if_pos hc] at hx2
        exact List.mem_of_mem_drop hx2
      · rw [if_neg hc] at hx2
        exact hx2
    rcases List.mem_append.mp hsub with h1 | h1
    · exact Or.inl h1
    · exact Or.inr (by simpa using h1)
  · intro s hs hsne hsreg
    have htr : optTruthy m.from_ = true := by simp [optTruthy, hs, hsne]
    have hgd : m.from_.getD "" = s := by simp [hs]
    constructor
    · rw [hqform, if_pos htr, hgd, alistFind_modify_self]
    · intro id2 h2
      rw [hqform, if_pos htr, hgd, alistFind_modify_ne _ _ _ _ (fun h3 => h2 h3.symm)]
  · intro htr
    rw [hqform, htr]
    simp
  · intro s hs hsnot
    have hgd : m.from_.getD "" = s := by simp [hs]
    rw [hqform]
    by_cases htr : optTruthy m.from_
    · rw [if_pos htr, hgd, alistModify_absent _ _ _ hsnot]
    · rw [if_neg htr]

theorem publish_unregistered_failure_notice_witness :
    alistFind "a" (MessageBus.publish 9 ⟨some "a", some "ghost", "ping", 2⟩
        ⟨[("a", [])], [], 1000⟩).agent_queues =
      some [⟨some "system", some "a", "DELIVERY FAILED: Agent ghost is not active.", 9⟩] ∧
    (MessageBus.publish 9 ⟨some "a", some "ghost", "ping", 2⟩
        ⟨[("a", [])], [], 1000⟩).message_history = [⟨some "a", some "ghost", "ping", 2⟩] := by
  have h := publish_unregistered_failure_notice ⟨[("a", [])], [], 1000⟩ 9
      ⟨some "a", some "ghost", "ping", 2⟩ (by decide) (by decide)
  refine ⟨((h.2.2.2.1 "a" rfl (by decide) (by decide)).1).trans (by decide), ?_⟩
  exact (h.2.1 (by decide)).trans (by decide)

/-! ### Convergence polling (`manager.py`, `wait_for_convergence`)

The loop polls the registry every 0.5 s.  A run is embedded as the trace of
its polls: each entry is `(live, elapsed)` where `live` is
`len(self.get_active_agents())` and `elapsed` is
`(datetime.now() - start).seconds` (whole seconds) at that poll.  `timeout`
is `Optional[float] = None`; the guard `if timeout and ... > timeout` uses
Python truthiness, so both `None` and `0` disable the timeout check.  A
finite trace on which the loop has not yet decided yields `none` (the call
is still polling). -/

/-- Python truthiness of the `timeout` argument in `if timeout and ...`. -/
def timeoutTruthy (timeout : Option Nat) : Bool :=
  match timeout with
  | none => false
  | some t => t ≠ 0

/-- Embeds the body of `wait_for_convergence`: return `True` on a poll with
zero live agents, `False` on a poll where the truthy timeout has strictly
elapsed, otherwise keep polling. -/
def waitForConvergence (timeout : Option Nat) : List (Nat × Nat) → Option Bool
  | [] => none
  | (live, elapsed) :: rest =>
    if live = 0 then some true
    else if timeoutTruthy timeout && decide (elapsed > timeout.getD 0) then some false
    else waitForConvergence timeout rest

/-- Decision taken at a single poll (left to right through the loop body). -/
def pollDecision (timeout : Option Nat) (p : Nat × Nat) : Option Bool :=
  if p.1 = 0 then some true
  else if timeoutTruthy timeout && decide (p.2 > timeout.getD 0) then some false
  else none

/-- C3 counterexample: with a zero timeout and live agents remaining past the
deadline, `wait_for_convergence` never returns `False` — `if timeout and ...`
is falsy for `timeout = 0`, so the loop keeps polling forever instead of
timing out as the claim requires. -/
theorem wait_for_convergence_zero_timeout_counterexample :
    waitForConvergence (some 0) [(1, 5), (1, 50)] = none ∧
    waitForConvergence (some 0) [(1, 5), (1, 50)] ≠ some false := by
  decide

theorem wait_first_decision (timeout : Option Nat) (trace : List (Nat × Nat)) (b : Bool) :
    waitForConvergence timeout trace = some b ↔
      ∃ l1 p l2, trace = l1 ++ p :: l2 ∧
        (∀ q ∈ l1, pollDecision timeout q = none) ∧
        pollDecision timeout p = some b := by
  induction trace with
  | nil =>
    simp only [waitForConvergence]
    constructor
    · intro h
      exact absurd h (by simp)
    · rintro ⟨l1, p, l2, heq, -, -⟩
      exact absurd heq (by simp)
  | cons hd rest ih =>
    obtain ⟨live, elapsed⟩ := hd
    by_cases h0 : live = 0
    · constructor
      · intro h
        have hb : b = true := by
          simpa [waitForConvergence, h0] using h
        exact ⟨[], (live, elapsed), rest, rfl, by simp, by simp [pollDecision, h0, hb]⟩
      · rintro ⟨l1, p, l2, heq, hcont, hdec⟩
        match l1, heq with
        | [], heq =>
          have hp : (live, elapsed) = p := by
            simpa using congrArg (fun l => l.head?) heq
          rw [← hp] at hdec
          have hb : b = true := by
            simpa [pollDecision, h0] using hdec
          simp [waitForConvergence, h0, hb]
        | q :: l1x, heq =>
          have hq : (live, elapsed) = q := by
            simpa using congrArg (fun l => l.head?) heq
          have := hcont q (List.mem_cons_self q l1x)
          rw [← hq] at this
          simp [pollDecision, h0] at this
    · by_cases ht : (timeoutTruthy timeout && decide (elapsed > timeout.getD 0)) = true
      · constructor
        · intro h
          have hb : b = false := by
            simpa [waitForConvergence, h0, ht] using h
          exact ⟨[], (live, elapsed), rest, rfl, by simp,
            by simp [pollDecision, h0, ht, hb]⟩
        · rintro ⟨l1, p, l2, heq, hcont, hdec⟩
          match l1, heq with
          | [], heq =>
            have hp : (live, elapsed) = p := by
              simpa using congrArg (fun l => l.head?) heq
            rw [← hp] at hdec
            have hb : b = false := by
              simpa [pollDecision, h0, ht] using hdec
            simp [waitForConvergence, h0, ht, hb]
          | q :: l1x, heq =>
            have hq : (live, elapsed) = q := by
              simpa using congrArg (fun l => l.head?) heq
            have := hcont q (List.mem_cons_self q l1x)
            rw [← hq] at this
            simp [pollDecision, h0, ht] at this
      · have hstep : waitForConvergence timeout ((live, elapsed) :: rest) =
            waitForConvergence timeout rest := by
          simp [waitForConvergence, h0, ht]
        rw [hstep, ih]
        constructor
        · rintro ⟨l1, p, l2, heq, hcont, hdec⟩
          refine ⟨(live, elapsed) :: l1, p, l2, by rw [heq, List.cons_append], ?_, hdec⟩
          intro q hq
          rcases List.mem_cons.mp hq with h1 | h1
          · rw [h1]
            simp [pollDecision, h0, ht]
          · exact hcont q h1
        · rintro ⟨l1, p, l2, heq, hcont, hdec⟩
          match l1, heq with
          | [], heq =>
            have hp : (live, elapsed) = p := by
              simpa using congrArg (fun l => l.head?) heq
            rw [← hp] at hdec
            simp [pollDecision, h0, ht] at hdec
          | q :: l1x, heq =>
            have htl : rest = l1x ++ p :: l2 := by
              simpa using congrArg (fun l => l.tail) heq
            exact ⟨l1x, p, l2, htl, fun r hr => hcont r (List.mem_cons_of_mem q hr), hdec⟩

theorem wait_falsy_true_of_zero (timeout : Option Nat) (trace : List (Nat × Nat))
    (hf : timeoutTruthy timeout = false) (hz : ∃ p ∈ trace, p.1 = 0) :
    waitForConvergence timeout trace = some true := by
  induction trace with
  | nil => simp at hz
  | cons hd rest ih =>
    obtain ⟨live, elapsed⟩ := hd
    by_cases h0 : live = 0
    · simp [waitForConvergence, h0]
    · have hz2 : ∃ p ∈ rest, p.1 = 0 := by
        rcases hz with ⟨p, hp, hp0⟩
        rcases List.mem_cons.mp hp with h1 | h1
        · rw [h1] at hp0
          exact absurd hp0 h0
        · exact ⟨p, h1, hp0⟩
      simp [waitForConvergence, h0, hf, ih hz2]

/-- C3 (amended): `wait_for_convergence` returns the decision of the first
poll that decides — `True` when that poll sees zero live agents (the zero
check has priority over the timeout check), `False` when it sees live agents
with the truthy timeout strictly exceeded in whole seconds; with a falsy
timeout (`None` or `0`) the timeout check is disabled, so the call never
returns `False` and returns `True` exactly when some poll observes zero live
agents (otherwise it polls forever). -/
theorem wait_for_convergence_spec (timeout : Option Nat) (trace : List (Nat × Nat)) :
    (∀ b, waitForConvergence timeout trace = some b ↔
      ∃ l1 p l2, trace = l1 ++ p :: l2 ∧
        (∀ q ∈ l1, pollDecision timeout q = none) ∧
        pollDecision timeout p = some b) ∧
    (timeoutTruthy timeout = false →
      waitForConvergence timeout trace ≠ some false ∧
      (waitForConvergence timeout trace = some true ↔ ∃ p ∈ trace, p.1 = 0)) := by
  refine ⟨fun b => wait_first_decision timeout trace b, fun hf => ⟨?_, ?_, ?_⟩⟩
  · intro h
    rcases (wait_first_decision timeout trace false).mp h with ⟨l1, p, l2, heq, hcont, hdec⟩
    by_cases h0 : p.1 = 0
    · simp [pollDecision, h0] at hdec
    · simp [pollDecision, h0, hf] at hdec
  · intro h
    rcases (wait_first_decision timeout trace true).mp h with ⟨l1, p, l2, heq, hcont, hdec⟩
    by_cases h0 : p.1 = 0
    · exact ⟨p, by rw [heq]; exact List.mem_append_right l1 (List.mem_cons_self p l2), h0⟩
    · simp [pollDecision, h0, hf] at hdec
  · exact wait_falsy_true_of_zero timeout trace hf

theorem wait_for_convergence_spec_witness :
    waitForConvergence (some 10) [(2, 0), (0, 3)] = some true := by
  exact ((wait_for_convergence_spec (some 10) [(2, 0), (0, 3)]).1 true).mpr
    ⟨[(2, 0)], (0, 3), [], by decide, by decide, by decide⟩

/-! ### Action grammar parser (`agent.py`, `_parse_agent_actions`)

The method scans the response once per tag kind with `re.finditer` and the
patterns (in declaration order)
`\[SPAWN:\s*(.+?)\]`, `\[BROADCAST:\s*(.+?)\]`, `\[MESSAGE\s+(\w+):\s*(.+?)\]`,
`\[WAIT:\s*(\d+)\]`, `\[PRINT:\s*(.+?)\]`, `\[TERMINATE:\s*(.+?)\]`, and the
tool-enabled subclass (`tool_agent.py`) additionally scans
`\[TOOL:\s*(\w+)\((.*?)\)\]` after the base kinds.  The embedding reproduces
the regex semantics on ASCII text: `\s` is the ASCII whitespace class, `\w`
alphanumerics plus underscore, `.` matches anything except a newline, `\s*`
is greedy with backtracking (tried longest first), `(.+?)` and `(.*?)` are
lazy (shortest body whose following literal fits), and `finditer` yields the
leftmost non-overlapping matches, resuming after each match. -/

/-- The ASCII whitespace class of the regex `\s` and of `str.strip()`. -/
def wsChar (c : Char) : Bool :=
  c == ' ' || c == '\t' || c == '\n' || c == '\r' || c == '\x0b' || c == '\x0c'

/-- The ASCII word class of the regex `\w`. -/
def wordChar (c : Char) : Bool :=
  c.isAlphanum || c == '_'

/-- Embeds `str.strip()`: drop leading and trailing whitespace. -/
def pyStrip (s : List Char) : List Char :=
  ((s.dropWhile wsChar).reverse.dropWhile wsChar).reverse

/-- Consume an exact literal prefix, returning the remaining text. -/
def dropLit : List Char → List Char → Option (List Char)
  | [], text => some text
  | _ :: _, [] => none
  | l :: ls, t :: ts => if t = l then dropLit ls ts else none

/-- Lazy continuation of `(.+?)\]` after at least one captured character:
stop at the first closing bracket, fail on a newline or the end of text. -/
def lazyGo (acc : List Char) : List Char → Option (List Char × List Char)
  | [] => none
  | c :: cs =>
    if c = ']' then some (acc.reverse, cs)
    else if c = '\n' then none
    else lazyGo (c :: acc) cs

/-- Match `(.+?)\]`: a lazy non-empty run of non-newline characters followed
by a closing bracket; returns the capture and the rest of the text. -/
def dotPlusLazy : List Char → Option (List Char × List Char)
  | [] => none
  | c :: cs => if c = '\n' then none else lazyGo [c] cs

/-- Backtracking over the greedy `\s*`: try the longest whitespace run first
(`w` characters skipped), then shorter runs down to zero. -/
def tryW : Nat → List Char → Option (List Char × List Char)
  | 0, cs => dotPlusLazy cs
  | w + 1, cs =>
    match dotPlusLazy (cs.drop (w + 1)) with
    | some r => some r
    | none => tryW w cs

/-- Match `\s*(.+?)\]` at the current position. -/
def spaceLazyBody (cs : List Char) : Option (List Char × List Char) :=
  tryW (cs.takeWhile wsChar).length cs

/-- Match a full `\[HEAD:\s*(.+?)\]` tag at the current position, `head`
being the literal text through the colon. -/
def matchTag (head : List Char) (text : List Char) : Option (List Char × List Char) :=
  match dropLit head text with
  | none => none
  | some rest => spaceLazyBody rest

/-- Embeds `re.finditer`: scan left to right, emit each match and resume
after its end, otherwise advance one character.  Fuel (the text length)
bounds the recursion; every step consumes at least one character, so the
fuel never runs out before the text does. -/
def scanAux {α : Type} (m : List Char → Option (α × List Char)) :
    Nat → List Char → List α
  | 0, _ => []
  | _ + 1, [] => []
  | fuel + 1, c :: rest =>
    match m (c :: rest) with
    | some (a, after) => a :: scanAux m fuel after
    | none => scanAux m fuel rest

/-- All captures of `\[HEAD:\s*(.+?)\]` over the response, in textual order. -/
def tagMatches (head : String) (response : String) : List String :=
  (scanAux (matchTag ("[" ++ head ++ ":").data) response.data.length response.data).map
    (fun c => String.mk c)

/-- Match `\[MESSAGE\s+(\w+):\s*(.+?)\]` at the current position, returning
the target id and body captures. -/
def matchMessageTag (text : List Char) : Option ((List Char × List Char) × List Char) :=
  match dropLit "[MESSAGE".data text with
  | none => none
  | some rest =>
    let sp := rest.takeWhile wsChar
    if sp.length = 0 then none
    else
      let rest2 := rest.drop sp.length
      let w := rest2.takeWhile wordChar
      if w.length = 0 then none
      else
        match rest2.drop w.length with
        | ':' :: rest3 =>
          match spaceLazyBody rest3 with
          | none => none
          | some (cap, after) => some ((w, cap), after)
        | _ => none

/-- All captures of the MESSAGE pattern, in textual order. -/
def messageMatches (response : String) : List (String × String) :=
  (scanAux matchMessageTag response.data.length response.data).map
    (fun p => (String.mk p.1, String.mk p.2))

/-- Match `\[WAIT:\s*(\d+)\]` at the current position. -/
def matchWaitTag (text : List Char) : Option (List Char × List Char) :=
  match dropLit "[WAIT:".data text with
  | none => none
  | some rest =>
    let rest2 := rest.dropWhile wsChar
    let d := rest2.takeWhile Char.isDigit
    if d.length = 0 then none
    else
      match rest2.drop d.length with
      | ']' :: after => some (d, after)
      | _ => none

/-- All captures of the WAIT pattern, in textual order. -/
def waitMatches (response : String) : List String :=
  (scanAux matchWaitTag response.data.length response.data).map (fun c => String.mk c)

/-- Lazy `(.*?)\)\]`: stop at the first close-paren immediately followed by a
close-bracket, fail on a newline or the end of text. -/
def lazyParen (acc : List Char) : List Char → Option (List Char × List Char)
  | [] => none
  | [_] => none
  | c :: d :: cs =>
    if c = ')' ∧ d = ']' then some (acc.reverse, cs)
    else if c = '\n' then none
    else lazyParen (c :: acc) (d :: cs)

/-- Match `\[TOOL:\s*(\w+)\((.*?)\)\]` at the current position (the
tool-enabled variant in `tool_agent.py`). -/
def matchToolTag (text : List Char) : Option ((List Char × List Char) × List Char) :=
  match dropLit "[TOOL:".data text with
  | none => none
  | some rest =>
    let rest2 := rest.dropWhile wsChar
    let w := rest2.takeWhile wordChar
    if w.length = 0 then none
    else
      match rest2.drop w.length with
      | '(' :: rest3 =>
        match lazyParen [] rest3 with
        | none => none
        | some (args, after) => some ((w, args), after)
      | _ => none

/-- All captures of the TOOL pattern, in textual order. -/
def toolMatches (response : String) : List (String × String) :=
  (scanAux matchToolTag response.data.length response.data).map
    (fun p => (String.mk p.1, String.mk p.2))

/-- Embeds `str.strip()` on a `String`. -/
def stripStr (s : String) : String := String.mk (pyStrip s.data)

/-- Embeds `Agent._parse_agent_actions`: one scan per kind, appended in the
fixed declaration order SPAWN, BROADCAST, MESSAGE, WAIT, PRINT, TERMINATE. -/
def parseAgentActions (response : String) : List (String × String) :=
  (tagMatches "SPAWN" response).map (fun c => ("SPAWN", stripStr c))
  ++ (tagMatches "BROADCAST" response).map (fun c => ("BROADCAST", stripStr c))
  ++ (messageMatches response).map (fun p => ("MESSAGE", p.1 ++ "|" ++ stripStr p.2))
  ++ (waitMatches response).map (fun c => ("WAIT", stripStr c))
  ++ (tagMatches "PRINT" response).map (fun c => ("PRINT", stripStr c))
  ++ (tagMatches "TERMINATE" response).map (fun c => ("TERMINATE", stripStr c))

/-- Embeds `ToolAgent._parse_agent_actions`: the base parse followed by the
TOOL matches. -/
def toolParseAgentActions (response : String) : List (String × String) :=
  parseAgentActions response
  ++ (toolMatches response).map (fun p => ("TOOL", stripStr p.1 ++ "|" ++ stripStr p.2))

/-- Rank of an operation kind in the parser's fixed declaration order. -/
def kindRank (k : String) : Nat :=
  if k = "SPAWN" then 0
  else if k = "BROADCAST" then 1
  else if k = "MESSAGE" then 2
  else if k = "WAIT" then 3
  else if k = "PRINT" then 4
  else if k = "TERMINATE" then 5
  else 6

/-- The parser's output restricted to one kind: that kind's matches in
left-to-right textual order (the order `re.finditer` yields them). -/
def kindGroup (k : String) (response : String) : List (String × String) :=
  if k = "SPAWN" then (tagMatches "SPAWN" response).map (fun c => ("SPAWN", stripStr c))
  else if k = "BROADCAST" then
    (tagMatches "BROADCAST" response).map (fun c => ("BROADCAST", stripStr c))
  else if k = "MESSAGE" then
    (messageMatches response).map (fun p => ("MESSAGE", p.1 ++ "|" ++ stripStr p.2))
  else if k = "WAIT" then (waitMatches response).map (fun c => ("WAIT", stripStr c))
  else if k = "PRINT" then (tagMatches "PRINT" response).map (fun c => ("PRINT", stripStr c))
  else if k = "TERMINATE" then
    (tagMatches "TERMINATE" response).map (fun c => ("TERMINATE", stripStr c))
  else []

theorem map_rank_const {β : Type} (g : β → String × String) (c : Nat)
    (hg : ∀ b, kindRank (g b).1 = c) (l : List β) :
    (l.map g).map (fun a => kindRank a.1) = List.replicate l.length c := by
  induction l with
  | nil => rfl
  | cons b rest ih =>
    simp only [List.map_cons, List.length_cons, List.replicate_succ, hg b, ih]

theorem map_rank_blocks (r : String) :
    (parseAgentActions r).map (fun a => kindRank a.1) =
      List.replicate (tagMatches "SPAWN" r).length 0
      ++ (List.replicate (tagMatches "BROADCAST" r).length 1
      ++ (List.replicate (messageMatches r).length 2
      ++ (List.replicate (waitMatches r).length 3
      ++ (List.replicate (tagMatches "PRINT" r).length 4
      ++ List.replicate (tagMatches "TERMINATE" r).length 5)))) := by
  rw [parseAgentActions]
  simp only [List.map_append, List.append_assoc]
  rw [map_rank_const (fun c : String => ("SPAWN", stripStr c)) 0 (fun _ => rfl),
    map_rank_const (fun c : String => ("BROADCAST", stripStr c)) 1 (fun _ => rfl),
    map_rank_const (fun p : String × String => ("MESSAGE", p.1 ++ "|" ++ stripStr p.2)) 2
      (fun _ => rfl),
    map_rank_const (fun c : String => ("WAIT", stripStr c)) 3 (fun _ => rfl),
    map_rank_const (fun c : String => ("PRINT", stripStr c)) 4 (fun _ => rfl),
    map_rank_const (fun c : String => ("TERMINATE", stripStr c)) 5 (fun _ => rfl)]

theorem sorted_replicate_le (c : Nat) (n : Nat) :
    (List.replicate n c).Sorted (fun a b => a ≤ b) := by
  induction n with
  | zero => simp
  | succ n ih =>
    rw [List.replicate_succ, List.sorted_cons]
    exact ⟨fun b hb => le_of_eq (List.eq_of_mem_replicate hb).symm, ih⟩

theorem sorted_replicate_append (c : Nat) (n : Nat) (l : List Nat)
    (hl : l.Sorted (fun a b => a ≤ b)) (hc : ∀ x ∈ l, c ≤ x) :
    (List.replicate n c ++ l).Sorted (fun a b => a ≤ b) := by
  induction n with
  | zero => simpa using hl
  | succ n ih =>
    rw [List.replicate_succ, List.cons_append, List.sorted_cons]
    refine ⟨?_, ih⟩
    intro b hb
    rcases List.mem_append.mp hb with h | h
    · exact le_of_eq (List.eq_of_mem_replicate h).symm
    · exact hc b h

theorem mem_replicate_append_ge (c : Nat) (n : Nat) (l : List Nat)
    (hc : ∀ x ∈ l, c ≤ x) : ∀ x ∈ List.replicate n c ++ l, c ≤ x := by
  intro x hx
  rcases List.mem_append.mp hx with h | h
  · exact le_of_eq (List.eq_of_mem_replicate h).symm
  · exact hc x h

theorem filter_kind_block {β : Type} (k k1 : String) (g : β → String) (l : List β) :
    (l.map (fun b => (k1, g b))).filter (fun a => decide (a.1 = k)) =
      if k1 = k then l.map (fun b => (k1, g b)) else [] := by
  induction l with
  | nil => simp
  | cons b rest ih =>
    by_cases h : k1 = k
    · simp [h, ih]
    · simp [h, ih]

theorem parse_filter_kind (r : String) (k : String) :
    (parseAgentActions r).filter (fun a => decide (a.1 = k)) = kindGroup k r := by
  have hS := filter_kind_block k "SPAWN" (fun c => stripStr c) (tagMatches "SPAWN" r)
  have hB := filter_kind_block k "BROADCAST" (fun c => stripStr c) (tagMatches "BROADCAST" r)
  have hM := filter_kind_block k "MESSAGE" (fun p => p.1 ++ "|" ++ stripStr p.2)
    (messageMatches r)
  have hW := filter_kind_block k "WAIT" (fun c => stripStr c) (waitMatches r)
  have hP := filter_kind_block k "PRINT" (fun c => stripStr c) (tagMatches "PRINT" r)
  have hT := filter_kind_block k "TERMINATE" (fun c => stripStr c) (tagMatches "TERMINATE" r)
  rw [parseAgentActions, kindGroup]
  simp only [List.filter_append, hS, hB, hM, hW, hP, hT]
  by_cases h0 : k = "SPAWN"
  · subst h0
    simp
  by_cases h1 : k = "BROADCAST"
  · subst h1
    simp
  by_cases h2 : k = "MESSAGE"
  · subst h2
    simp
  by_cases h3 : k = "WAIT"
  · subst h3
    simp
  by_cases h4 : k = "PRINT"
  · subst h4
    simp
  by_cases h5 : k = "TERMINATE"
  · subst h5
    simp
  have h0x : ¬("SPAWN" = k) := fun hh => h0 hh.symm
  have h1x : ¬("BROADCAST" = k) := fun hh => h1 hh.symm
  have h2x : ¬("MESSAGE" = k) := fun hh => h2 hh.symm
  have h3x : ¬("WAIT" = k) := fun hh => h3 hh.symm
  have h4x : ¬("PRINT" = k) := fun hh => h4 hh.symm
  have h5x : ¬("TERMINATE" = k) := fun hh => h5 hh.symm
  simp [h0, h1, h2, h3, h4, h5, h0x, h1x, h2x, h3x, h4x, h5x]

/-- C2: the parsed operation list is always grouped by kind in the fixed
declaration order SPAWN, BROADCAST, MESSAGE, WAIT, PRINT, TERMINATE (kind
ranks appear in non-decreasing order), each kind's group being exactly that
kind's matches in left-to-right textual order; the tool-enabled variant
appends the TOOL matches last; and on a text with one MESSAGE tag textually
before one SPAWN tag the parsed list is SPAWN then MESSAGE. -/
theorem parse_actions_grouped_by_kind :
    (∀ r : String,
      ((parseAgentActions r).map (fun a => kindRank a.1)).Sorted (fun a b => a ≤ b)) ∧
    (∀ r k : String,
      (parseAgentActions r).filter (fun a => decide (a.1 = k)) = kindGroup k r) ∧
    (∀ r : String, toolParseAgentActions r =
      parseAgentActions r
        ++ (toolMatches r).map (fun p => ("TOOL", stripStr p.1 ++ "|" ++ stripStr p.2))) ∧
    parseAgentActions "I will [MESSAGE abc: hi] and [SPAWN: explore the data]" =
      [("SPAWN", "explore the data"), ("MESSAGE", "abc|hi")] ∧
    toolParseAgentActions "[TOOL: calc(2 + 2)] then [SPAWN: x]" =
      [("SPAWN", "x"), ("TOOL", "calc|2 + 2")] := by
  refine ⟨?_, parse_filter_kind, fun r => rfl, by decide, by decide⟩
  intro r
  rw [map_rank_blocks r]
  have h5p := sorted_replicate_le 5 (tagMatches "TERMINATE" r).length
  have h5g : ∀ x ∈ List.replicate (tagMatches "TERMINATE" r).length 5, 5 ≤ x :=
    fun x hx => le_of_eq (List.eq_of_mem_replicate hx).symm
  have h4p := sorted_replicate_append 4 (tagMatches "PRINT" r).length _ h5p
    (fun x hx => le_trans (by omega) (h5g x hx))
  have h4g := mem_replicate_append_ge 4 (tagMatches "PRINT" r).length _
    (fun x hx => le_trans (by omega) (h5g x hx))
  have h3p := sorted_replicate_append 3 (waitMatches r).length _ h4p
    (fun x hx => le_trans (by omega) (h4g x hx))
  have h3g := mem_replicate_append_ge 3 (waitMatches r).length _
    (fun x hx => le_trans (by omega) (h4g x hx))
  have h2p := sorted_replicate_append 2 (messageMatches r).length _ h3p
    (fun x hx => le_trans (by omega) (h3g x hx))
  have h2g := mem_replicate_append_ge 2 (messageMatches r).length _
    (fun x hx => le_trans (by omega) (h3g x hx))
  have h1p := sorted_replicate_append 1 (tagMatches "BROADCAST" r).length _ h2p
    (fun x hx => le_trans (by omega) (h2g x hx))
  have h1g := mem_replicate_append_ge 1 (tagMatches "BROADCAST" r).length _
    (fun x hx => le_trans (by omega) (h2g x hx))
  exact sorted_replicate_append 0 (tagMatches "SPAWN" r).length _ h1p
    (fun x hx => le_trans (by omega) (h1g x hx))

/-! ### Agents (`agent.py`, class `Agent`)

Only the state the orchestrator claims touch is embedded: identity and tree
fields, liveness, the transcript (`context_history`, a list of role-tagged
entries), and the worker-visible `active_agents` strings.  The external
`chat_complete` collaborator is a black box (`api.py` is outside the core),
so embedded operations that call it take an oracle function and report how
many generation calls they issued. -/

structure AgentState where
  id : String
  parent_id : Option String
  children_ids : List String
  mission : String
  model_name : String
  alive : Bool
  context_history : List (String × String)
  active_agents : List String
  deriving DecidableEq, Repr

/-- Embeds the spawn-request dict built by `Agent.spawn` (parallel branch):
`parent_id`, the pre-allocated `child_id`, the mission and the parent's
model configuration (the class names and the queue handle carry no state). -/
structure SpawnData where
  parent_id : String
  child_id : String
  mission : String
  model_name : String
  deriving DecidableEq, Repr

/-- A request enqueued on the manager queue by a worker agent. -/
inductive Request where
  | spawnReq (d : SpawnData)
  | terminateReq (agent_id : String) (reason : String)
  deriving DecidableEq, Repr

/-- Embeds `Agent.spawn` in parallel mode (`manager_queue` present): the
fresh `child_id` (a uuid in the source, passed in here) is appended to
`children_ids` first, and only then is the spawn request submitted; the
returned pair is (parent state at submission time, submitted request). -/
def AgentState.spawn (a : AgentState) (child_id : String) (mission : String) :
    AgentState × Request :=
  ({ a with children_ids := a.children_ids ++ [child_id] },
   .spawnReq { parent_id := a.id, child_id := child_id, mission := mission,
               model_name := a.model_name })

/-- Embeds `Agent.from_spawn_data` composed with `Agent.__init__`: the child
starts alive, with no children, an empty transcript, and `parent_id` taken
from the request. -/
def fromSpawnData (d : SpawnData) : AgentState :=
  { id := d.child_id
    parent_id := some d.parent_id
    children_ids := []
    mission := d.mission
    model_name := d.model_name
    alive := true
    context_history := []
    active_agents := [] }

/-- Embeds `Agent.terminate` in parallel mode: a no-op returning no request
when the agent is already dead, otherwise clear `alive` and submit one
terminate request. -/
def AgentState.terminate (a : AgentState) (reason : String) : AgentState × List Request :=
  if a.alive = false then (a, [])
  else ({ a with alive := false }, [.terminateReq a.id reason])

theorem alistFind_insert_self {α : Type} (k : String) (v : α) (l : List (String × α)) :
    alistFind k (alistInsert k v l) = some v := by
  induction l with
  | nil => simp [alistInsert, alistFind]
  | cons e rest ih =>
    obtain ⟨k1, v1⟩ := e
    by_cases h : k1 = k
    · simp [alistInsert, alistFind, h]
    · simp [alistInsert, alistFind, h, ih]

theorem alistFind_insert_ne {α : Type} (k k1 : String) (v : α) (l : List (String × α))
    (h : k1 ≠ k) : alistFind k (alistInsert k1 v l) = alistFind k l := by
  induction l with
  | nil => simp [alistInsert, alistFind, h]
  | cons e rest ih =>
    obtain ⟨k2, v1⟩ := e
    by_cases h2 : k2 = k1
    · subst h2
      simp [alistInsert, alistFind, h]
    · by_cases h3 : k2 = k
      · subst h3
        simp [alistInsert, alistFind, h2]
      · simp [alistInsert, alistFind, h2, h3, ih]

theorem alistKeys_map_keep {α : Type} (g : String × α → String × α) (l : List (String × α))
    (hg : ∀ e, (g e).1 = e.1) : alistKeys (l.map g) = alistKeys l := by
  induction l with
  | nil => rfl
  | cons e rest ih =>
    have ih2 : List.map Prod.fst (rest.map g) = List.map Prod.fst rest := ih
    simp [alistKeys, hg e, ih2]

/-! ### Orchestrator (`manager.py`, class `AgentManager`)

`threads` keeps only the thread dict's key set; the monitor thread, the
manager queue handle and print statements carry no registry state.  The
summarization call to `chat_complete` is abstracted as an oracle
`llm : AgentState → String` (the prompt is built from exactly the agent's
id, mission and `context_history`); operations that may call it report the
number of generation calls they issued. -/

structure RegEntry where
  id : String
  mission : String
  parent_id : Option String
  alive : Bool
  deriving DecidableEq, Repr

structure Manager where
  message_bus : MessageBus
  threads : List String
  agent_registry : List (String × RegEntry)
  agents : List (String × AgentState)
  running : Bool
  agent_summaries : List (String × String)
  total_agents_created : Nat
  total_agents_died : Nat
  deriving DecidableEq, Repr

/-- Embeds `AgentManager.__init__`. -/
def Manager.init : Manager :=
  { message_bus := MessageBus.init, threads := [], agent_registry := [], agents := []
    running := false, agent_summaries := [], total_agents_created := 0
    total_agents_died := 0 }

/-- Embeds `AgentManager.register_agent`: wire the agent (no observable
state), register its mailbox, store it in `agents`, `agent_registry` and the
default summary in `agent_summaries`, start its thread when running, and
count it. -/
def Manager.registerAgent (agent : AgentState) (m : Manager) : Manager :=
  { m with
    message_bus := m.message_bus.registerAgent agent.id
    agents := alistInsert agent.id agent m.agents
    agent_registry := alistInsert agent.id
      { id := agent.id, mission := agent.mission, parent_id := agent.parent_id, alive := true }
      m.agent_registry
    agent_summaries := alistInsert agent.id ("New agent working on: " ++ agent.mission)
      m.agent_summaries
    threads := if m.running then
        (if agent.id ∈ m.threads then m.threads else m.threads ++ [agent.id])
      else m.threads
    total_agents_created := m.total_agents_created + 1 }

/-- Embeds `AgentManager.get_active_agents`. -/
def Manager.getActiveAgents (m : Manager) : List AgentState :=
  (m.agents.map Prod.snd).filter (fun a => a.alive)

/-- Embeds the per-sibling list comprehension of `update_agent_summary`:
the view an agent with id `self_id` gets of the other active agents
(summary truncated to 50 characters, mission as fallback). -/
def activeView (m : Manager) (self_id : String) : List String :=
  ((m.getActiveAgents).filter (fun a => a.id ≠ self_id)).map
    (fun a => a.id ++ ": "
      ++ String.mk (((alistFind a.id m.agent_summaries).getD a.mission).data.take 50)
      ++ "...")

/-- Embeds `AgentManager.update_agent_summary`: no-op when the id is not in
`agents` or the transcript has fewer than 4 entries (2 exchanges); otherwise
issue exactly one generation call, store the stripped result keyed by id,
and refresh every other agent's `active_agents` view.  The second component
counts the generation calls issued. -/
def Manager.updateAgentSummary (llm : AgentState → String) (agent_id : String)
    (m : Manager) : Manager × Nat :=
  match alistFind agent_id m.agents with
  | none => (m, 0)
  | some agent =>
    if agent.context_history.length < 4 then (m, 0)
    else
      let summary := stripStr (llm agent)
      let m1 : Manager :=
        { m with agent_summaries := alistInsert agent_id summary m.agent_summaries }
      let agents2 := m1.agents.map (fun e =>
        if e.1 ≠ agent_id then (e.1, { e.2 with active_agents := activeView m1 e.1 }) else e)
      ({ m1 with agents := agents2 }, 1)

/-- Embeds `AgentManager.unregister_agent`: guarded on membership in
`agents`; compute the final summary, drop the thread entry, the registry
entry, the mailbox and the agent itself, and count the death.  The summary
entry is never removed. -/
def Manager.unregisterAgent (llm : AgentState → String) (agent_id : String)
    (m : Manager) : Manager :=
  if (alistFind agent_id m.agents).isSome then
    let m1 := (m.updateAgentSummary llm agent_id).1
    { m1 with
      threads := m1.threads.filter (fun t => t ≠ agent_id)
      agent_registry := alistErase agent_id m1.agent_registry
      message_bus := m1.message_bus.unregisterAgent agent_id
      agents := alistErase agent_id m1.agents
      total_agents_died := m1.total_agents_died + 1 }
  else m

theorem updateAgentSummary_frame (llm : AgentState → String) (agent_id : String)
    (m : Manager) :
    alistKeys ((m.updateAgentSummary llm agent_id).1).agents = alistKeys m.agents ∧
    ((m.updateAgentSummary llm agent_id).1).agent_registry = m.agent_registry ∧
    ((m.updateAgentSummary llm agent_id).1).message_bus = m.message_bus ∧
    ((m.updateAgentSummary llm agent_id).1).threads = m.threads ∧
    (∀ k, (alistFind k m.agent_summaries).isSome →
      (alistFind k ((m.updateAgentSummary llm agent_id).1).agent_summaries).isSome) := by
  match hfind : alistFind agent_id m.agents with
  | none =>
    simp [Manager.updateAgentSummary, hfind]
  | some agent =>
    by_cases hlen : agent.context_history.length < 4
    · simp [Manager.updateAgentSummary, hfind, hlen]
    · have hkeys : ∀ (mm : Manager),
          alistKeys (mm.agents.map (fun e =>
            if e.1 ≠ agent_id then
              (e.1, { e.2 with active_agents := activeView mm e.1 }) else e)) =
            alistKeys mm.agents := by
        intro mm
        refine alistKeys_map_keep _ _ ?_
        intro e
        by_cases h : e.1 ≠ agent_id <;> simp [h]
      refine ⟨?_, ?_, ?_, ?_, ?_⟩ <;>
        simp only [Manager.updateAgentSummary, hfind, if_neg hlen]
      · exact hkeys _
      · intro k hk
        by_cases h : k = agent_id
        · subst h
          simp [alistFind_insert_self]
        · simpa [alistFind_insert_ne _ _ _ _ (fun h2 => h h2.symm)] using hk

/-- C7: termination and unregistration are idempotent — `terminate` on an
already-dead agent changes nothing and emits no request (so `alive` goes
from true to false at most once and at most one terminate request is ever
submitted), and `unregister_agent` on an id absent from the registry leaves
the manager (registry, bus, counters) entirely unchanged. -/
theorem terminate_unregister_idempotent :
    (∀ (a : AgentState) (reason : String), a.alive = false →
      a.terminate reason = (a, [])) ∧
    (∀ (a : AgentState) (r1 r2 : String),
      ((a.terminate r1).1).terminate r2 = ((a.terminate r1).1, [])) ∧
    (∀ (llm : AgentState → String) (agent_id : String) (m : Manager),
      alistFind agent_id m.agents = none → m.unregisterAgent llm agent_id = m) := by
  refine ⟨?_, ?_, ?_⟩
  · intro a reason h
    simp [AgentState.terminate, h]
  · intro a r1 r2
    by_cases h : a.alive = false
    · simp [AgentState.terminate, h]
    · simp [AgentState.terminate, h]
  · intro llm agent_id m h
    simp [Manager.unregisterAgent, h]

theorem terminate_unregister_idempotent_witness :
    AgentState.terminate
        { id := "g", parent_id := none, children_ids := [], mission := "m"
          model_name := "mod", alive := false, context_history := [], active_agents := [] }
        "again" =
      ({ id := "g", parent_id := none, children_ids := [], mission := "m"
         model_name := "mod", alive := false, context_history := [], active_agents := [] },
       []) ∧
    Manager.unregisterAgent (fun _ => "s") "ghost" Manager.init = Manager.init := by
  exact ⟨terminate_unregister_idempotent.1 _ "again" rfl,
    terminate_unregister_idempotent.2.2 (fun _ => "s") "ghost" Manager.init (by decide)⟩

/-- C8: `update_agent_summary` is a no-op — manager returned unchanged and
zero generation calls issued — when the id is not registered or the agent's
transcript has fewer than 4 entries (2 exchanges); otherwise it issues
exactly one generation call and stores the stripped result keyed by the id. -/
theorem update_summary_no_op_conditions :
    (∀ (llm : AgentState → String) (agent_id : String) (m : Manager),
      alistFind agent_id m.agents = none →
      m.updateAgentSummary llm agent_id = (m, 0)) ∧
    (∀ (llm : AgentState → String) (agent_id : String) (m : Manager) (a : AgentState),
      alistFind agent_id m.agents = some a → a.context_history.length < 4 →
      m.updateAgentSummary llm agent_id = (m, 0)) ∧
    (∀ (llm : AgentState → String) (agent_id : String) (m : Manager) (a : AgentState),
      alistFind agent_id m.agents = some a → 4 ≤ a.context_history.length →
      (m.updateAgentSummary llm agent_id).2 = 1 ∧
      alistFind agent_id ((m.updateAgentSummary llm agent_id).1).agent_summaries =
        some (stripStr (llm a))) := by
  refine ⟨?_, ?_, ?_⟩
  · intro llm agent_id m h
    simp [Manager.updateAgentSummary, h]
  · intro llm agent_id m a h hlen
    simp [Manager.updateAgentSummary, h, hlen]
  · intro llm agent_id m a h hlen
    have hlen2 : ¬(a.context_history.length < 4) := by omega
    constructor
    · simp [Manager.updateAgentSummary, h, hlen2]
    · simp [Manager.updateAgentSummary, h, hlen2, alistFind_insert_self]

theorem update_summary_no_op_conditions_witness :
    Manager.updateAgentSummary (fun _ => " ok ") "ghost" Manager.init =
      (Manager.init, 0) ∧
    (Manager.updateAgentSummary (fun _ => " ok ") "a1"
      { message_bus := ⟨[("a1", [])], [], 1000⟩, threads := [], agent_registry := [],
        agents := [("a1",
          { id := "a1", parent_id := none, children_ids := [], mission := "mis",
            model_name := "mod", alive := true,
            context_history := [("user", "q"), ("assistant", "r"), ("user", "q2"),
              ("assistant", "r2")],
            active_agents := [] })],
        running := true, agent_summaries := [("a1", "New agent working on: mis")],
        total_agents_created := 1, total_agents_died := 0 }).2 = 1 := by
  refine ⟨update_summary_no_op_conditions.1 (fun _ => " ok ") "ghost" Manager.init (by decide),
    ?_⟩
  exact (update_summary_no_op_conditions.2.2 (fun _ => " ok ") "a1" _
    { id := "a1", parent_id := none, children_ids := [], mission := "mis",
      model_name := "mod", alive := true,
      context_history := [("user", "q"), ("assistant", "r"), ("user", "q2"),
        ("assistant", "r2")],
      active_agents := [] } (by decide) (by decide)).1

/-- C6: a spawn appends the pre-allocated child id to the parent's
`children_ids` before the request is submitted (the submitted request
carries that same child id together with the parent's id and model
configuration), the child created from the request has `parent_id` equal to
the spawning agent's id, and when the monitor registers that child, the
parent's stored entry already contains the child's id. -/
theorem spawn_child_ordering (a : AgentState) (child_id mission : String) :
    ((a.spawn child_id mission).1).children_ids = a.children_ids ++ [child_id] ∧
    child_id ∈ ((a.spawn child_id mission).1).children_ids ∧
    (a.spawn child_id mission).2 =
      Request.spawnReq
        { parent_id := a.id, child_id := child_id, mission := mission,
          model_name := a.model_name } ∧
    (∀ d : SpawnData, (a.spawn child_id mission).2 = Request.spawnReq d →
      (fromSpawnData d).parent_id = some a.id ∧
      (fromSpawnData d).id = child_id ∧
      (fromSpawnData d).alive = true) ∧
    (∀ (m : Manager) (d : SpawnData), child_id ≠ a.id →
      (a.spawn child_id mission).2 = Request.spawnReq d →
      alistFind a.id m.agents = some ((a.spawn child_id mission).1) →
      alistFind child_id ((Manager.registerAgent (fromSpawnData d) m).agents) =
        some (fromSpawnData d) ∧
      ∃ p : AgentState,
        alistFind a.id ((Manager.registerAgent (fromSpawnData d) m).agents) = some p ∧
        child_id ∈ p.children_ids) := by
  refine ⟨rfl, by simp [AgentState.spawn], rfl, ?_, ?_⟩
  · intro d hd
    have hd2 : ({ parent_id := a.id, child_id := child_id, mission := mission,
                  model_name := a.model_name } : SpawnData) = d := by
      simpa [AgentState.spawn] using hd
    subst hd2
    simp [fromSpawnData]
  · intro m d hne hd hfind
    have hd2 : ({ parent_id := a.id, child_id := child_id, mission := mission,
                  model_name := a.model_name } : SpawnData) = d := by
      simpa [AgentState.spawn] using hd
    subst hd2
    have hid : (fromSpawnData { parent_id := a.id, child_id := child_id, mission := mission,
                                model_name := a.model_name }).id = child_id := rfl
    constructor
    · simp only [Manager.registerAgent, hid]
      exact alistFind_insert_self _ _ _
    · refine ⟨(a.spawn child_id mission).1, ?_, by simp [AgentState.spawn]⟩
      simp only [Manager.registerAgent, hid]
      rw [alistFind_insert_ne _ _ _ _ hne]
      exact hfind

theorem spawn_child_ordering_witness :
    alistFind "c1"
      ((Manager.registerAgent
        (fromSpawnData { parent_id := "p1", child_id := "c1", mission := "sub",
                         model_name := "mod" })
        { message_bus := ⟨[("p1", [])], [], 1000⟩, threads := [], agent_registry := [],
          agents := [("p1",
            { id := "p1", parent_id := none, children_ids := ["c1"], mission := "root",
              model_name := "mod", alive := true, context_history := [],
              active_agents := [] })],
          running := false, agent_summaries := [("p1", "New agent working on: root")],
          total_agents_created := 1, total_agents_died := 0 }).agents) =
      some (fromSpawnData { parent_id := "p1", child_id := "c1", mission := "sub",
                            model_name := "mod" }) := by
  exact ((spawn_child_ordering
    { id := "p1", parent_id := none, children_ids := [], mission := "root",
      model_name := "mod", alive := true, context_history := [], active_agents := [] }
    "c1" "sub").2.2.2.2 _
    { parent_id := "p1", child_id := "c1", mission := "sub", model_name := "mod" }
    (by decide) (by decide) (by decide)).1

theorem alistFind_erase_self {α : Type} (k : String) (l : List (String × α)) :
    alistFind k (alistErase k l) = none := by
  induction l with
  | nil => rfl
  | cons e rest ih =>
    obtain ⟨k1, v⟩ := e
    by_cases h : k1 = k
    · simpa [alistErase, h] using ih
    · simpa [alistErase, alistFind, h] using ih

/-- One registry mutation as serialized by the monitor coordinator. -/
inductive MgrOp where
  | reg (a : AgentState)
  | unreg (agent_id : String)

/-- Apply one registry mutation. -/
def applyMgrOp (llm : AgentState → String) (m : Manager) : MgrOp → Manager
  | .reg a => m.registerAgent a
  | .unreg agent_id => m.unregisterAgent llm agent_id

/-- The registry-consistency invariant: the three id maps carry the same key
list, and every registered id has a summary entry. -/
def ManagerInv (m : Manager) : Prop :=
  alistKeys m.agents = alistKeys m.agent_registry ∧
  alistKeys m.agents = alistKeys m.message_bus.agent_queues ∧
  ∀ k ∈ alistKeys m.agents, (alistFind k m.agent_summaries).isSome

theorem registerAgent_inv (a : AgentState) (m : Manager) (h : ManagerInv m) :
    ManagerInv (m.registerAgent a) := by
  obtain ⟨h1, h2, h3⟩ := h
  by_cases hmem : a.id ∈ alistKeys m.agents
  · have hreg : a.id ∈ alistKeys m.agent_registry := h1 ▸ hmem
    have hbus : a.id ∈ alistKeys m.message_bus.agent_queues := h2 ▸ hmem
    refine ⟨?_, ?_, ?_⟩
    · simp only [Manager.registerAgent]
      rw [alistKeys_insert_mem _ _ _ hmem, alistKeys_insert_mem _ _ _ hreg, h1]
    · simp only [Manager.registerAgent, MessageBus.registerAgent, if_pos hbus]
      rw [alistKeys_insert_mem _ _ _ hmem, h2]
    · intro k hk
      simp only [Manager.registerAgent] at hk ⊢
      rw [alistKeys_insert_mem _ _ _ hmem] at hk
      by_cases hka : k = a.id
      · subst hka
        simp [alistFind_insert_self]
      · rw [alistFind_insert_ne _ _ _ _ (fun hh => hka hh.symm)]
        exact h3 k hk
  · have hreg : a.id ∉ alistKeys m.agent_registry := h1 ▸ hmem
    have hbus : a.id ∉ alistKeys m.message_bus.agent_queues := h2 ▸ hmem
    refine ⟨?_, ?_, ?_⟩
    · simp only [Manager.registerAgent]
      rw [alistKeys_insert_not_mem _ _ _ hmem, alistKeys_insert_not_mem _ _ _ hreg, h1]
    · simp only [Manager.registerAgent, MessageBus.registerAgent, if_neg hbus]
      rw [alistKeys_insert_not_mem _ _ _ hmem, h2]
      simp [alistKeys]
    · intro k hk
      simp only [Manager.registerAgent] at hk ⊢
      rw [alistKeys_insert_not_mem _ _ _ hmem] at hk
      by_cases hka : k = a.id
      · subst hka
        simp [alistFind_insert_self]
      · rw [alistFind_insert_ne _ _ _ _ (fun hh => hka hh.symm)]
        rcases List.mem_append.mp hk with hk2 | hk2
        · exact h3 k hk2
        · simp at hk2
          exact absurd hk2 hka

theorem unregisterAgent_inv (llm : AgentState → String) (agent_id : String) (m : Manager)
    (h : ManagerInv m) : ManagerInv (m.unregisterAgent llm agent_id) := by
  by_cases hs : (alistFind agent_id m.agents).isSome
  · obtain ⟨hf1, hf2, hf3, hf4, hf5⟩ := updateAgentSummary_frame llm agent_id m
    obtain ⟨h1, h2, h3⟩ := h
    have hm1 : ManagerInv ((m.updateAgentSummary llm agent_id).1) := by
      refine ⟨?_, ?_, ?_⟩
      · rw [hf1, hf2, h1]
      · rw [hf1, hf3, h2]
      · intro k hk
        rw [hf1] at hk
        exact hf5 k (h3 k hk)
    obtain ⟨g1, g2, g3⟩ := hm1
    simp only [Manager.unregisterAgent, if_pos hs]
    refine ⟨?_, ?_, ?_⟩
    · rw [alistKeys_erase, alistKeys_erase, g1]
    · simp only [MessageBus.unregisterAgent]
      rw [alistKeys_erase, alistKeys_erase, g2]
    · intro k hk
      rw [alistKeys_erase, List.mem_filter] at hk
      exact g3 k hk.1
  · simp only [Manager.unregisterAgent, if_neg hs]
    exact h

theorem foldMgrOps_inv (llm : AgentState → String) (ops : List MgrOp) (m : Manager)
    (h : ManagerInv m) : ManagerInv (ops.foldl (applyMgrOp llm) m) := by
  induction ops generalizing m with
  | nil => exact h
  | cons op rest ih =>
    rw [List.foldl_cons]
    match op with
    | .reg a => exact ih _ (registerAgent_inv a m h)
    | .unreg agent_id => exact ih _ (unregisterAgent_inv llm agent_id m h)

/-- C9: after every sequence of register and unregister operations from a
fresh manager, the key lists of the `agents` map, the `agent_registry` map
and the bus's mailbox map coincide, and every registered id has a summary
entry; unregistering a registered id removes it from all three maps but
retains its summary entry. -/
theorem registry_consistency (llm : AgentState → String) (ops : List MgrOp) :
    ManagerInv (ops.foldl (applyMgrOp llm) Manager.init) ∧
    (∀ (llm2 : AgentState → String) (agent_id : String) (m : Manager),
      (alistFind agent_id m.agent_summaries).isSome →
      (alistFind agent_id (m.unregisterAgent llm2 agent_id).agent_summaries).isSome) ∧
    (∀ (llm2 : AgentState → String) (agent_id : String) (m : Manager),
      (alistFind agent_id m.agents).isSome →
      alistFind agent_id (m.unregisterAgent llm2 agent_id).agents = none ∧
      agent_id ∉ alistKeys (m.unregisterAgent llm2 agent_id).agent_registry ∧
      agent_id ∉ alistKeys (m.unregisterAgent llm2 agent_id).message_bus.agent_queues) := by
  refine ⟨foldMgrOps_inv llm ops Manager.init ⟨rfl, rfl, by simp [Manager.init, alistKeys]⟩,
    ?_, ?_⟩
  · intro llm2 agent_id m hsum
    by_cases hs : (alistFind agent_id m.agents).isSome
    · obtain ⟨-, -, -, -, hf5⟩ := updateAgentSummary_frame llm2 agent_id m
      simp only [Manager.unregisterAgent, if_pos hs]
      exact hf5 agent_id hsum
    · simpa [Manager.unregisterAgent, hs] using hsum
  · intro llm2 agent_id m hs
    simp only [Manager.unregisterAgent, if_pos hs]
    refine ⟨alistFind_erase_self _ _, ?_, ?_⟩
    · rw [alistKeys_erase, List.mem_filter]
      simp
    · simp only [MessageBus.unregisterAgent]
      rw [alistKeys_erase, List.mem_filter]
      simp

theorem registry_consistency_witness :
    alistFind "g1"
      ((Manager.unregisterAgent (fun _ => "sum") "g1"
        (Manager.registerAgent
          { id := "g1", parent_id := none, children_ids := [], mission := "root",
            model_name := "mod", alive := true, context_history := [], active_agents := [] }
          Manager.init)).agents) = none := by
  exact ((registry_consistency (fun _ => "sum") []).2.2 (fun _ => "sum") "g1"
    (Manager.registerAgent
      { id := "g1", parent_id := none, children_ids := [], mission := "root",
        model_name := "mod", alive := true, context_history := [], active_agents := [] }
      Manager.init) (by decide)).1
